import Mathlib

/-!
Verification development for the `thumbnailer` crate
(`src/lib.rs`: format dispatch + multi-size resize pipeline).

The crate's `lib.rs` is embedded directly.  Its sibling modules
(`error`, `formats`, `size`) are not part of the provided sources, so the
error taxonomy, the format dispatcher `get_base_image` and the size
catalog `ThumbnailSize` are modelled from the specification.  The external
collaborators (the `image` codec/resampling crate and `rayon`'s parallel
iterators) are modelled at their interface boundary: pixel decoding and
resampling are abstract capabilities passed as parameters, while the
aspect-preserving dimension computation performed by
`image::DynamicImage::resize` is embedded exactly (its `f64` scaling is
modelled as exact rational arithmetic with round-half-up, which agrees
with `f64` on all inputs relevant here), and `rayon`'s ordered parallel
map is modelled as a fork-join binary splitting of the input list.
-/

namespace Thumbnailer

/-- One pixel: red, green, blue and alpha channels (8-bit values modelled
as `Nat`).  An image without an alpha channel is modelled with `a = 255`
(fully opaque). -/
structure Rgba where
  r : Nat
  g : Nat
  b : Nat
  a : Nat
deriving DecidableEq, Repr

/-- The colour model an image buffer is currently held in.  The decoded
base image stays in whatever native model the codec produced (`native`);
conversions to 8-bit RGBA / RGB happen only at encode time. -/
inductive ColorModel where
  | native
  | rgba8
  | rgb8
deriving DecidableEq, Repr

/-- Model of `image::DynamicImage`: an in-memory raster image with its
dimensions, current colour model and pixel rows. -/
structure DynamicImage where
  width : Nat
  height : Nat
  color : ColorModel
  pixels : List (List Rgba)
deriving DecidableEq, Repr

/-- `GenericImageView::dimensions`: the image's size as (width, height). -/
def DynamicImage.dimensions (self : DynamicImage) : Nat × Nat :=
  (self.width, self.height)

/-- `image::imageops::FilterType` (only the variants the crate names). -/
inductive FilterType where
  | nearest
  | triangle
  | lanczos3
deriving DecidableEq, Repr

/-- `image::ImageFormat` restricted to the output formats the crate uses. -/
inductive ImageFormat where
  | png
  | jpeg
deriving DecidableEq, Repr

/-- Modelled from the spec: the caller-supplied declared media type, an
identifier used solely to select a decode path (never sniffed from the
bytes).  A handful of common raster types plus an `other` bucket. -/
inductive Mime where
  | imagePng
  | imageJpeg
  | imageGif
  | imageBmp
  | other
deriving DecidableEq, Repr

/-- Modelled from the spec: the error taxonomy of the crate's missing
`error` module — the four failure kinds of §7 of the specification. -/
inductive ThumbError where
  | unsupportedFormat
  | decodeFailure
  | ioFailure
  | encodeFailure
deriving DecidableEq, Repr

/-- Modelled from the spec: `error::ThumbResult`, a plain result type over
the error taxonomy. -/
abbrev ThumbResult (A : Type) := Except ThumbError A

/-- Model of the caller-supplied seekable byte source: either the raw byte
content, or a source whose reads fail at the transport level. -/
inductive Reader where
  | ioError
  | bytes (data : List Nat)
deriving DecidableEq, Repr

/-- A decode capability for one media type: parse the bytes into a raster
image, or fail (`none` = the bytes do not conform to the format). -/
abbrev Decoder := List Nat → Option DynamicImage

/-- The registry of supported media types: the capability-lookup table
from declared type to decode function.  Its exact supported set is a
configuration of the external codec collaborator, so it is a parameter. -/
abbrev Registry := Mime → Option Decoder

/-- The external resampling capability: resample a raster image to the
given width and height with the given filter.  Its pixel-level behaviour
is out of scope; the contract that the output has exactly the requested
dimensions is taken as a hypothesis where needed. -/
abbrev Resample := DynamicImage → Nat → Nat → FilterType → DynamicImage

/-- Modelled from the spec: `formats::get_base_image`, the format
dispatcher.  It looks the declared type up in the registry first (an
unsupported type is reported without reading the stream), then reads the
stream (transport failure → `ioFailure`), then decodes (malformed bytes →
`decodeFailure`); on success it yields exactly one fully decoded image. -/
def get_base_image (registry : Registry) (reader : Reader) (mime : Mime) :
    ThumbResult DynamicImage :=
  match registry mime with
  | none => .error .unsupportedFormat
  | some decoder =>
    match reader with
    | .ioError => .error .ioFailure
    | .bytes data =>
      match decoder data with
      | none => .error .decodeFailure
      | some image => .ok image

/-- Round-to-nearest of the exact quotient `a / b` (half rounds up), as
natural-number arithmetic: `(2*a + b) / (2*b)`. -/
def roundDiv (a b : Nat) : Nat :=
  (2 * a + b) / (2 * b)

/-- `u32::MAX`. -/
def U32_MAX : Nat := 4294967295

/-- Embedding of `image::math::utils::resize_dimensions` (with
`fill = false`), the dimension computation inside
`DynamicImage::resize`: scale by the smaller of `nwidth/width` and
`nheight/height`, round each dimension to the nearest integer, clamp it
to at least 1, and clamp overflowing results to `u32::MAX`.  The source's
`f64` arithmetic is modelled as exact rational rounding. -/
def resize_dimensions (width height nwidth nheight : Nat) : Nat × Nat :=
  let nwnh :=
    if nwidth * height ≤ nheight * width then
      (max (roundDiv (width * nwidth) width) 1,
       max (roundDiv (height * nwidth) width) 1)
    else
      (max (roundDiv (width * nheight) height) 1,
       max (roundDiv (height * nheight) height) 1)
  if U32_MAX < nwnh.1 then
    (U32_MAX, max (roundDiv (height * U32_MAX) width) 1)
  else if U32_MAX < nwnh.2 then
    (max (roundDiv (width * U32_MAX) height) 1, U32_MAX)
  else nwnh

/-- Embedding of `image::DynamicImage::resize`: preserves the aspect
ratio, scaling to the largest size fitting in `nwidth × nheight`.  If the
bounds equal the current dimensions the image is returned unchanged
(cloned); otherwise the aspect-fit dimensions are computed and the
external resampling capability is invoked at exactly those dimensions. -/
def DynamicImage.resize (resample : Resample) (self : DynamicImage)
    (nwidth nheight : Nat) (filter : FilterType) : DynamicImage :=
  if (nwidth, nheight) = self.dimensions then self
  else
    let wh := resize_dimensions self.width self.height nwidth nheight
    resample self wh.1 wh.2 filter

/-- `DynamicImage::into_rgba8`: convert the buffer to 8-bit RGBA.  The
pixel data (including the alpha channel) is preserved. -/
def DynamicImage.into_rgba8 (self : DynamicImage) : DynamicImage :=
  { self with color := .rgba8 }

/-- `DynamicImage::into_rgb8`: convert the buffer to 8-bit RGB.  The
alpha channel is stripped (every pixel becomes fully opaque). -/
def DynamicImage.into_rgb8 (self : DynamicImage) : DynamicImage :=
  { self with
    color := .rgb8,
    pixels := self.pixels.map (fun row => row.map (fun p => { p with a := 255 })) }

/-- Model of the external encode capability `DynamicImage::write_to`:
serialize the image in the given format to the caller's sink, or fail.
Encoder failures already carry the crate's error kind (the crate's `?`
conversion from the codec's error type is the identity here). -/
abbrev WriteTo := DynamicImage → ImageFormat → ThumbResult Unit

/-- `Thumbnail`: the value object owning one resized raster image. -/
structure Thumbnail where
  inner : DynamicImage
deriving DecidableEq, Repr

/-- `Thumbnail::size`: the realized (width, height) of the thumbnail. -/
def Thumbnail.size (self : Thumbnail) : Nat × Nat :=
  self.inner.dimensions

/-- Rust's derived `Clone` for `Thumbnail`: a field-wise deep copy,
yielding an equal value. -/
def Thumbnail.clone (self : Thumbnail) : Thumbnail :=
  self

/-- `Thumbnail::write_png`: convert the held raster to 8-bit RGBA and
encode it as PNG, forwarding any encoder failure.  (The Rust signature
takes `self` by value: the thumbnail is consumed.) -/
def Thumbnail.write_png (write_to : WriteTo) (self : Thumbnail) :
    ThumbResult Unit :=
  let image := self.inner.into_rgba8
  match write_to image .png with
  | .error e => .error e
  | .ok _ => .ok ()

/-- `Thumbnail::write_jpeg`: convert the held raster to 8-bit RGB and
encode it as JPEG, forwarding any encoder failure.  (The Rust signature
takes `self` by value: the thumbnail is consumed.) -/
def Thumbnail.write_jpeg (write_to : WriteTo) (self : Thumbnail) :
    ThumbResult Unit :=
  let image := self.inner.into_rgb8
  match write_to image .jpeg with
  | .error e => .error e
  | .ok _ => .ok ()

/-- Modelled from the spec: the Size Catalog of the crate's missing
`size` module — a closed enumeration of named size classes, each mapped
to one fixed maximum bounding box.  The boxes follow the spec's scenarios
(in particular one class with box (300, 300)). -/
inductive ThumbnailSize where
  | small
  | medium
  | large
deriving DecidableEq, Repr

/-- Modelled from the spec: `ThumbnailSize::dimensions`, the total fixed
mapping from size class to its maximum (width, height) bounding box. -/
def ThumbnailSize.dimensions (self : ThumbnailSize) : Nat × Nat :=
  match self with
  | .small => (100, 100)
  | .medium => (200, 200)
  | .large => (300, 300)

/-- Model of `rayon`'s ordered parallel map (`into_par_iter().map(f)`
collected into a `Vec`): the work is fork-joined by binary splitting of
the index range and the halves are concatenated back in order. -/
def parMap (f : α → β) (l : List α) : List β :=
  if _h : l.length ≤ 1 then l.map f
  else
    parMap f (l.take (l.length / 2)) ++ parMap f (l.drop (l.length / 2))
termination_by l.length
decreasing_by
  · simp only [List.length_take]
    omega
  · simp only [List.length_drop]
    omega

/-- `resize_images`: for each requested size class, look its bounding box
up and resize the shared base image to fit it with a Lanczos3 filter,
distributing the independent per-size computations across workers. -/
def resize_images (resample : Resample) (image : DynamicImage)
    (sizes : List ThumbnailSize) : List DynamicImage :=
  parMap
    (fun size =>
      let wh := size.dimensions
      image.resize resample wh.1 wh.2 .lanczos3)
    sizes

/-- `create_thumbnails`: the public entry point.  Decode one base image
for the declared type, resize it to every requested size and wrap each
result in a `Thumbnail`; any decode failure aborts the whole call. -/
def create_thumbnails (registry : Registry) (resample : Resample)
    (reader : Reader) (mime : Mime) (sizes : List ThumbnailSize) :
    ThumbResult (List Thumbnail) :=
  match get_base_image registry reader mime with
  | .error e => .error e
  | .ok image =>
    .ok ((resize_images resample image sizes).map (fun image => Thumbnail.mk image))

/-- The aspect-fit dimensions exactly as the specification states them:
scale (W, H) by the factor `min (maxW / W) (maxH / H)` (exact rational
arithmetic) and round each coordinate to the nearest integer, never below
one pixel. -/
def specAspectFit (W H maxW maxH : Nat) : Nat × Nat :=
  let r : ℚ := min ((maxW : ℚ) / (W : ℚ)) ((maxH : ℚ) / (H : ℚ))
  ((round ((W : ℚ) * r)).toNat.max 1, (round ((H : ℚ) * r)).toNat.max 1)

/-! ## Helper lemmas -/

/-- The fork-join parallel map computes exactly the sequential map. -/
theorem parMap_eq_map (f : α → β) (l : List α) : parMap f l = l.map f := by
  rw [parMap]
  split
  · rfl
  · rename_i h
    rw [parMap_eq_map f (l.take (l.length / 2)),
      parMap_eq_map f (l.drop (l.length / 2)),
      ← List.map_append, List.take_append_drop]
termination_by l.length
decreasing_by
  · simp only [List.length_take]
    omega
  · simp only [List.length_drop]
    omega

theorem roundDiv_mul_left (a b : Nat) (ha : 0 < a) : roundDiv (a * b) a = b := by
  unfold roundDiv
  rw [show 2 * (a * b) + a = a * (2 * b + 1) by ring,
    show 2 * a = a * 2 by ring, Nat.mul_div_mul_left _ _ ha]
  omega

theorem roundDiv_le {a b c : Nat} (hb : 0 < b) (h : a ≤ b * c) : roundDiv a b ≤ c := by
  have h2 : 2 * a + b < (c + 1) * (2 * b) := by nlinarith
  have h3 := (Nat.div_lt_iff_lt_mul (by omega : 0 < 2 * b)).2 h2
  unfold roundDiv
  omega

/-- Natural round-half-up division agrees with rounding the exact
rational quotient. -/
theorem roundDiv_eq_round (a b : Nat) (hb : 0 < b) :
    roundDiv a b = (round ((a : ℚ) / (b : ℚ))).toNat := by
  have hb' : (b : ℚ) ≠ 0 := Nat.cast_ne_zero.mpr (by omega)
  rw [round_eq]
  have key : (a : ℚ) / (b : ℚ) + 1 / 2 =
      ((2 * a + b : ℕ) : ℚ) / ((2 * b : ℕ) : ℚ) := by
    push_cast
    field_simp
    ring
  rw [key, Int.floor_toNat, Nat.floor_div_eq_div]
  rfl

/-- Under positive, `u32`-bounded inputs the overflow clamps of
`resize_dimensions` are unreachable and the two min-ratio branches take
this simple form. -/
theorem resize_dimensions_eq_branches (W H maxW maxH : Nat) (hW : 0 < W)
    (hH : 0 < H) (hmW : 0 < maxW) (hmH : 0 < maxH) (hmW2 : maxW ≤ U32_MAX)
    (hmH2 : maxH ≤ U32_MAX) :
    resize_dimensions W H maxW maxH =
      if maxW * H ≤ maxH * W then (maxW, max (roundDiv (H * maxW) W) 1)
      else (max (roundDiv (W * maxH) H) 1, maxH) := by
  unfold resize_dimensions
  split
  · rename_i hc
    rw [roundDiv_mul_left W maxW hW]
    have h1 : max maxW 1 = maxW := by omega
    have h2 : roundDiv (H * maxW) W ≤ maxH :=
      roundDiv_le hW (by nlinarith)
    rw [h1, if_neg (by simp only [not_lt]; omega), if_neg (by simp only [not_lt]; omega)]
  · rename_i hc
    rw [roundDiv_mul_left H maxH hH]
    have h1 : max maxH 1 = maxH := by omega
    have h2 : roundDiv (W * maxH) H ≤ maxW :=
      roundDiv_le hH (by nlinarith)
    rw [h1, if_neg (by simp only [not_lt]; omega), if_neg (by simp only [not_lt]; omega)]

/-- The embedded dimension computation realizes the specification's
aspect-fit formula: scale by the exact rational factor
`min (maxW / W) (maxH / H)` and round to nearest. -/
theorem resize_dimensions_eq_specAspectFit (W H maxW maxH : Nat) (hW : 0 < W)
    (hH : 0 < H) (hmW : 0 < maxW) (hmH : 0 < maxH) (hmW2 : maxW ≤ U32_MAX)
    (hmH2 : maxH ≤ U32_MAX) :
    resize_dimensions W H maxW maxH = specAspectFit W H maxW maxH := by
  rw [resize_dimensions_eq_branches W H maxW maxH hW hH hmW hmH hmW2 hmH2]
  have hWq : (0 : ℚ) < (W : ℚ) := by exact_mod_cast hW
  have hHq : (0 : ℚ) < (H : ℚ) := by exact_mod_cast hH
  unfold specAspectFit
  split
  · rename_i hc
    have hr : min ((maxW : ℚ) / (W : ℚ)) ((maxH : ℚ) / (H : ℚ)) =
        (maxW : ℚ) / (W : ℚ) := by
      apply min_eq_left
      rw [div_le_div_iff₀ hWq hHq]
      exact_mod_cast hc
    rw [hr]
    simp only [Prod.mk.injEq]
    constructor
    · have e1 : (W : ℚ) * ((maxW : ℚ) / (W : ℚ)) = (maxW : ℚ) := by
        field_simp
      rw [e1, round_natCast, Int.toNat_natCast]
      exact (Nat.max_eq_left hmW).symm
    · have e2 : (H : ℚ) * ((maxW : ℚ) / (W : ℚ)) =
          ((H * maxW : ℕ) : ℚ) / ((W : ℕ) : ℚ) := by
        push_cast
        ring
      rw [e2, ← roundDiv_eq_round _ _ hW]
  · rename_i hc
    have hr : min ((maxW : ℚ) / (W : ℚ)) ((maxH : ℚ) / (H : ℚ)) =
        (maxH : ℚ) / (H : ℚ) := by
      apply min_eq_right
      rw [div_le_div_iff₀ hHq hWq]
      have hc2 : maxH * W ≤ maxW * H := by omega
      exact_mod_cast hc2
    rw [hr]
    simp only [Prod.mk.injEq]
    constructor
    · have e2 : (W : ℚ) * ((maxH : ℚ) / (H : ℚ)) =
          ((W * maxH : ℕ) : ℚ) / ((H : ℕ) : ℚ) := by
        push_cast
        ring
      rw [e2, ← roundDiv_eq_round _ _ hH]
    · have e1 : (H : ℚ) * ((maxH : ℚ) / (H : ℚ)) = (maxH : ℚ) := by
        field_simp
      rw [e1, round_natCast, Int.toNat_natCast]
      exact (Nat.max_eq_left hmH).symm

/-- Under the catalog's bounds the realized dimensions never exceed the
bounding box. -/
theorem resize_dimensions_le_box (W H maxW maxH : Nat) (hW : 0 < W)
    (hH : 0 < H) (hmW : 0 < maxW) (hmH : 0 < maxH) (hmW2 : maxW ≤ U32_MAX)
    (hmH2 : maxH ≤ U32_MAX) :
    (resize_dimensions W H maxW maxH).1 ≤ maxW ∧
    (resize_dimensions W H maxW maxH).2 ≤ maxH := by
  rw [resize_dimensions_eq_branches W H maxW maxH hW hH hmW hmH hmW2 hmH2]
  split
  · rename_i hc
    have h2 : roundDiv (H * maxW) W ≤ maxH :=
      roundDiv_le hW (by nlinarith)
    exact ⟨le_refl _, by simp only []; omega⟩
  · rename_i hc
    have h2 : roundDiv (W * maxH) H ≤ maxW :=
      roundDiv_le hH (by nlinarith)
    exact ⟨by simp only []; omega, le_refl _⟩

/-- A box equal to the source dimensions scales by factor one. -/
theorem specAspectFit_self (W H : Nat) (hW : 0 < W) (hH : 0 < H) :
    specAspectFit W H W H = (W, H) := by
  unfold specAspectFit
  have hWq : (W : ℚ) ≠ 0 := Nat.cast_ne_zero.mpr (by omega)
  have hHq : (H : ℚ) ≠ 0 := Nat.cast_ne_zero.mpr (by omega)
  rw [div_self hWq, div_self hHq, min_self]
  simp only [mul_one, round_natCast, Int.toNat_natCast, Prod.mk.injEq]
  exact ⟨Nat.max_eq_left hW, Nat.max_eq_left hH⟩

/-- Every catalog box is positive and fits in `u32`. -/
theorem ThumbnailSize.dimensions_bounds (s : ThumbnailSize) :
    0 < s.dimensions.1 ∧ 0 < s.dimensions.2 ∧
    s.dimensions.1 ≤ U32_MAX ∧ s.dimensions.2 ≤ U32_MAX := by
  cases s <;> decide

/-- The thumbnail the pipeline produces for one size class. -/
def thumbnail_for (resample : Resample) (image : DynamicImage)
    (size : ThumbnailSize) : Thumbnail :=
  Thumbnail.mk (image.resize resample size.dimensions.1 size.dimensions.2 .lanczos3)

/-- On a successful decode the entry point returns exactly the requested
sizes mapped through the pipeline, in request order. -/
theorem create_thumbnails_eq_ok {registry : Registry} {resample : Resample}
    {reader : Reader} {mime : Mime} {image : DynamicImage}
    (h : get_base_image registry reader mime = .ok image)
    (sizes : List ThumbnailSize) :
    create_thumbnails registry resample reader mime sizes =
      .ok (sizes.map (thumbnail_for resample image)) := by
  unfold create_thumbnails
  rw [h]
  show Except.ok ((resize_images resample image sizes).map
    (fun image => Thumbnail.mk image)) = _
  unfold resize_images
  rw [parMap_eq_map, List.map_map]
  rfl

/-- Dimension behaviour of one `resize` call under the resampling
capability's contract: the result has the spec's aspect-fit dimensions
and respects the bounding box. -/
theorem resize_size (resample : Resample)
    (hres : ∀ img w h f,
      ((resample img w h f).width, (resample img w h f).height) = (w, h))
    (image : DynamicImage) (hW : 0 < image.width) (hH : 0 < image.height)
    (maxW maxH : Nat) (hmW : 0 < maxW) (hmH : 0 < maxH)
    (hmW2 : maxW ≤ U32_MAX) (hmH2 : maxH ≤ U32_MAX) :
    ((image.resize resample maxW maxH .lanczos3).width,
     (image.resize resample maxW maxH .lanczos3).height) =
      specAspectFit image.width image.height maxW maxH ∧
    (image.resize resample maxW maxH .lanczos3).width ≤ maxW ∧
    (image.resize resample maxW maxH .lanczos3).height ≤ maxH := by
  unfold DynamicImage.resize
  split
  · rename_i heq
    unfold DynamicImage.dimensions at heq
    simp only [Prod.mk.injEq] at heq
    obtain ⟨h1, h2⟩ := heq
    subst h1
    subst h2
    rw [specAspectFit_self image.width image.height hW hH]
    exact ⟨rfl, le_refl _, le_refl _⟩
  · have hd := hres image (resize_dimensions image.width image.height maxW maxH).1
      (resize_dimensions image.width image.height maxW maxH).2 .lanczos3
    simp only [Prod.mk.injEq] at hd
    obtain ⟨hw, hh⟩ := hd
    simp only [hw, hh]
    rw [Prod.mk.eta,
      resize_dimensions_eq_specAspectFit image.width image.height maxW maxH
        hW hH hmW hmH hmW2 hmH2]
    have hb := resize_dimensions_le_box image.width image.height maxW maxH
      hW hH hmW hmH hmW2 hmH2
    rw [resize_dimensions_eq_specAspectFit image.width image.height maxW maxH
      hW hH hmW hmH hmW2 hmH2] at hb
    exact ⟨rfl, hb.1, hb.2⟩

/-! ## Concrete fixtures used by the witnesses -/

/-- A concrete resampling capability: returns an image with exactly the
requested dimensions. -/
def wResample : Resample := fun image w h _ =>
  { width := w, height := h, color := image.color, pixels := [] }

/-- A 4000 × 3000 base image fixture. -/
def wImage4000 : DynamicImage :=
  { width := 4000, height := 3000, color := .native, pixels := [] }

/-- A 100 × 200 base image fixture. -/
def wImage100 : DynamicImage :=
  { width := 100, height := 200, color := .native, pixels := [] }

/-- A concrete decoder: empty input is malformed, a leading 0 decodes to
the 4000 × 3000 fixture, anything else to the 100 × 200 fixture. -/
def wDecoder : Decoder := fun data =>
  match data with
  | [] => none
  | 0 :: _ => some wImage4000
  | _ => some wImage100

/-- A concrete registry: only `image/png` has a decoder. -/
def wRegistry : Registry := fun mime =>
  match mime with
  | .imagePng => some wDecoder
  | _ => none

/-! ## Claims -/

/-- C1: for every successfully decoded base image (W, H) and every
requested size class with box (maxW, maxH), the thumbnail returned by
`create_thumbnails` for that class has `size` bounded by the box and
equal to the largest aspect-ratio-preserving pair up to integer rounding,
i.e. scaling by the exact factor `min (maxW/W, maxH/H)` (`specAspectFit`);
the concrete 4000×3000 / (300,300) → (300,225) instance is exercised by
the witness. -/
theorem create_thumbnails_aspect_fit (registry : Registry)
    (resample : Resample)
    (hres : ∀ img w h f,
      ((resample img w h f).width, (resample img w h f).height) = (w, h))
    (reader : Reader) (mime : Mime) (image : DynamicImage)
    (hdec : get_base_image registry reader mime = .ok image)
    (hW : 0 < image.width) (hH : 0 < image.height)
    (sizes : List ThumbnailSize) :
    ∃ l : List Thumbnail,
      create_thumbnails registry resample reader mime sizes = .ok l ∧
      ∀ (i : Nat) (s : ThumbnailSize), sizes[i]? = some s →
        ∃ t : Thumbnail, l[i]? = some t ∧
          t.size = specAspectFit image.width image.height
            s.dimensions.1 s.dimensions.2 ∧
          t.size.1 ≤ s.dimensions.1 ∧ t.size.2 ≤ s.dimensions.2 := by
  refine ⟨sizes.map (thumbnail_for resample image),
    create_thumbnails_eq_ok hdec sizes, ?_⟩
  intro i s hi
  obtain ⟨hmW, hmH, hmW2, hmH2⟩ := ThumbnailSize.dimensions_bounds s
  have h := resize_size resample hres image hW hH s.dimensions.1
    s.dimensions.2 hmW hmH hmW2 hmH2
  refine ⟨thumbnail_for resample image s, ?_, h.1, h.2.1, h.2.2⟩
  rw [List.getElem?_map, hi]
  rfl

/-- C1 witness: a 4000×3000 source with the (300, 300) size class yields
exactly a 300×225 thumbnail. -/
theorem create_thumbnails_aspect_fit_witness :
    ∃ l, create_thumbnails wRegistry wResample (.bytes [0]) .imagePng
        [.large] = .ok l ∧
      ∃ t, l[0]? = some t ∧ t.size = (300, 225) ∧
        t.size.1 ≤ 300 ∧ t.size.2 ≤ 300 := by
  obtain ⟨l, hl, hall⟩ := create_thumbnails_aspect_fit wRegistry wResample
    (fun img w h f => rfl) (.bytes [0]) .imagePng wImage4000 rfl
    (by decide) (by decide) [.large]
  obtain ⟨t, ht, hsize, hle1, hle2⟩ := hall 0 .large rfl
  refine ⟨l, hl, t, ht, ?_, hle1, hle2⟩
  rw [hsize]
  show specAspectFit 4000 3000 300 300 = (300, 225)
  rw [← resize_dimensions_eq_specAspectFit 4000 3000 300 300 (by decide)
    (by decide) (by decide) (by decide) (by decide) (by decide)]
  decide

/-- C2: on every successful decode the call returns Ok with exactly one
thumbnail per requested size class, positionally matching the caller's
request order, and duplicate requests yield independent thumbnails of
identical dimensions (no deduplication). -/
theorem create_thumbnails_one_per_request (registry : Registry)
    (resample : Resample) (reader : Reader) (mime : Mime)
    (image : DynamicImage)
    (hdec : get_base_image registry reader mime = .ok image)
    (sizes : List ThumbnailSize) :
    ∃ l : List Thumbnail,
      create_thumbnails registry resample reader mime sizes = .ok l ∧
      l.length = sizes.length ∧
      (∀ i : Nat, l[i]? = (sizes[i]?).map (thumbnail_for resample image)) ∧
      (∀ (i j : Nat) (s : ThumbnailSize),
        sizes[i]? = some s → sizes[j]? = some s →
        ∃ t u : Thumbnail,
          l[i]? = some t ∧ l[j]? = some u ∧ t.size = u.size) := by
  refine ⟨sizes.map (thumbnail_for resample image),
    create_thumbnails_eq_ok hdec sizes, by simp,
    fun i => List.getElem?_map _ _ _, ?_⟩
  intro i j s hi hj
  exact ⟨thumbnail_for resample image s, thumbnail_for resample image s,
    by rw [List.getElem?_map, hi]; rfl,
    by rw [List.getElem?_map, hj]; rfl, rfl⟩

/-- C2 witness: requesting the same class twice yields two thumbnails
with identical dimensions. -/
theorem create_thumbnails_one_per_request_witness :
    ∃ l, create_thumbnails wRegistry wResample (.bytes [0]) .imagePng
        [.medium, .medium] = .ok l ∧
      l.length = 2 ∧
      ∃ t u, l[0]? = some t ∧ l[1]? = some u ∧ t.size = u.size := by
  obtain ⟨l, hl, hlen, _hidx, hdup⟩ := create_thumbnails_one_per_request
    wRegistry wResample (.bytes [0]) .imagePng wImage4000 rfl
    [.medium, .medium]
  obtain ⟨t, u, ht, hu, hsz⟩ := hdup 0 1 .medium rfl rfl
  exact ⟨l, hl, hlen, t, u, ht, hu, hsz⟩

/-- C3: the call never reports partial success and never retries: it
either returns a single Ok with one thumbnail per requested size class,
or the first encountered error with no thumbnails delivered. -/
theorem create_thumbnails_all_or_nothing (registry : Registry)
    (resample : Resample) (reader : Reader) (mime : Mime)
    (sizes : List ThumbnailSize) :
    (∃ e, get_base_image registry reader mime = .error e ∧
      create_thumbnails registry resample reader mime sizes = .error e) ∨
    (∃ (image : DynamicImage) (l : List Thumbnail),
      get_base_image registry reader mime = .ok image ∧
      create_thumbnails registry resample reader mime sizes = .ok l ∧
      l.length = sizes.length) := by
  cases h : get_base_image registry reader mime with
  | error e =>
    left
    refine ⟨e, rfl, ?_⟩
    unfold create_thumbnails
    rw [h]
  | ok image =>
    right
    exact ⟨image, sizes.map (thumbnail_for resample image), rfl,
      create_thumbnails_eq_ok h sizes, by simp⟩

/-- C4: a declared media type with no registered decoder yields the
`unsupportedFormat` error kind, for every byte stream and size list. -/
theorem create_thumbnails_unsupported (registry : Registry)
    (resample : Resample) (mime : Mime) (h : registry mime = none)
    (reader : Reader) (sizes : List ThumbnailSize) :
    create_thumbnails registry resample reader mime sizes =
      .error .unsupportedFormat := by
  unfold create_thumbnails get_base_image
  rw [h]

/-- C4 witness: a type missing from the registry is rejected as
unsupported. -/
theorem create_thumbnails_unsupported_witness :
    create_thumbnails wRegistry wResample (.bytes []) .other [.small] =
      .error .unsupportedFormat :=
  create_thumbnails_unsupported wRegistry wResample .other rfl
    (.bytes []) [.small]

/-- C5: byte content that is malformed for a declared type that does have
a registered decoder produces a `decodeFailure` error value (the model is
a total function: no panic or divergence is possible). -/
theorem create_thumbnails_malformed (registry : Registry)
    (resample : Resample) (mime : Mime) (decoder : Decoder)
    (hreg : registry mime = some decoder) (data : List Nat)
    (hmal : decoder data = none) (sizes : List ThumbnailSize) :
    create_thumbnails registry resample (.bytes data) mime sizes =
      .error .decodeFailure := by
  have h1 : get_base_image registry (.bytes data) mime =
      .error .decodeFailure := by
    unfold get_base_image
    rw [hreg]
    simp only [hmal]
  unfold create_thumbnails
  rw [h1]

/-- C5 witness: the empty byte stream is malformed for the registered
PNG decoder and yields `decodeFailure`. -/
theorem create_thumbnails_malformed_witness :
    create_thumbnails wRegistry wResample (.bytes []) .imagePng [.small] =
      .error .decodeFailure :=
  create_thumbnails_malformed wRegistry wResample .imagePng wDecoder rfl
    [] rfl [.small]

/-- C6: with zero requested sizes the call returns Ok with the empty
list, for every resampling capability alike — the capability is never
invoked. -/
theorem create_thumbnails_empty_sizes (registry : Registry)
    (reader : Reader) (mime : Mime) (image : DynamicImage)
    (hdec : get_base_image registry reader mime = .ok image) :
    ∀ resample : Resample,
      create_thumbnails registry resample reader mime [] = .ok [] := by
  intro resample
  rw [create_thumbnails_eq_ok hdec]
  rfl

/-- C6 witness: zero sizes yield the empty list on the 4000×3000
fixture. -/
theorem create_thumbnails_empty_sizes_witness :
    create_thumbnails wRegistry wResample (.bytes [0]) .imagePng [] =
      .ok [] :=
  create_thumbnails_empty_sizes wRegistry (.bytes [0]) .imagePng
    wImage4000 rfl wResample

/-- C7: the fork-join parallel resize pipeline returns exactly the same
list of images (same order, dimensions and pixels) as the purely
sequential map over the same size list. -/
theorem resize_images_parallel_eq_sequential (resample : Resample)
    (image : DynamicImage) (sizes : List ThumbnailSize) :
    resize_images resample image sizes =
      sizes.map (fun size =>
        image.resize resample size.dimensions.1 size.dimensions.2
          .lanczos3) :=
  parMap_eq_map _ _

/-- C8: `write_png` converts the held raster to 8-bit RGBA (pixel data,
alpha included, preserved) before encoding as PNG, `write_jpeg` converts
it to 8-bit RGB (alpha stripped to fully opaque) before encoding as JPEG,
and both forward the underlying encoder's failure unchanged; the Rust
signatures take `self` by value, so each `Thumbnail` is consumed by its
encoding call. -/
theorem thumbnail_write_pair (write_to : WriteTo) (t : Thumbnail) :
    t.write_png write_to = write_to t.inner.into_rgba8 .png ∧
    t.inner.into_rgba8.color = .rgba8 ∧
    t.inner.into_rgba8.pixels = t.inner.pixels ∧
    t.inner.into_rgba8.dimensions = t.inner.dimensions ∧
    t.write_jpeg write_to = write_to t.inner.into_rgb8 .jpeg ∧
    t.inner.into_rgb8.color = .rgb8 ∧
    t.inner.into_rgb8.pixels = t.inner.pixels.map (fun row =>
      row.map (fun p => { r := p.r, g := p.g, b := p.b, a := 255 })) ∧
    t.inner.into_rgb8.dimensions = t.inner.dimensions ∧
    (∀ e, t.write_png write_to = .error e ↔
      write_to t.inner.into_rgba8 .png = .error e) ∧
    (∀ e, t.write_jpeg write_to = .error e ↔
      write_to t.inner.into_rgb8 .jpeg = .error e) := by
  have hpng : t.write_png write_to = write_to t.inner.into_rgba8 .png := by
    show (match write_to t.inner.into_rgba8 ImageFormat.png with
      | .error e => (.error e : ThumbResult Unit)
      | .ok _ => .ok ()) = write_to t.inner.into_rgba8 .png
    cases write_to t.inner.into_rgba8 .png with
    | error e => rfl
    | ok u => cases u; rfl
  have hjpeg : t.write_jpeg write_to = write_to t.inner.into_rgb8 .jpeg := by
    show (match write_to t.inner.into_rgb8 ImageFormat.jpeg with
      | .error e => (.error e : ThumbResult Unit)
      | .ok _ => .ok ()) = write_to t.inner.into_rgb8 .jpeg
    cases write_to t.inner.into_rgb8 .jpeg with
    | error e => rfl
    | ok u => cases u; rfl
  refine ⟨hpng, rfl, rfl, rfl, hjpeg, rfl, rfl, rfl, ?_, ?_⟩
  · intro e
    rw [hpng]
  · intro e
    rw [hjpeg]

/-- A box strictly larger than the source in both dimensions never
leaves the dimensions unchanged. -/
theorem specAspectFit_ne_of_lt (W H maxW maxH : Nat) (hW : 0 < W)
    (hH : 0 < H) (h1 : W < maxW) (h2 : H < maxH) (hmW2 : maxW ≤ U32_MAX)
    (hmH2 : maxH ≤ U32_MAX) :
    specAspectFit W H maxW maxH ≠ (W, H) := by
  rw [← resize_dimensions_eq_specAspectFit W H maxW maxH hW hH (by omega)
      (by omega) hmW2 hmH2,
    resize_dimensions_eq_branches W H maxW maxH hW hH (by omega) (by omega)
      hmW2 hmH2]
  split
  · intro hcontra
    simp only [Prod.mk.injEq] at hcontra
    omega
  · intro hcontra
    simp only [Prod.mk.injEq] at hcontra
    omega

/-- C9: the implementation pins the open upscaling question to the
"always fit" policy — a source strictly smaller than the requested box in
both dimensions is upscaled to the largest aspect-preserving size fitting
the box, never returned at its original size; the witness exercises the
100×200 / (300,300) → (150,300) instance. -/
theorem create_thumbnails_upscale_policy (registry : Registry)
    (resample : Resample)
    (hres : ∀ img w h f,
      ((resample img w h f).width, (resample img w h f).height) = (w, h))
    (reader : Reader) (mime : Mime) (image : DynamicImage)
    (hdec : get_base_image registry reader mime = .ok image)
    (hW : 0 < image.width) (hH : 0 < image.height)
    (sizes : List ThumbnailSize) :
    ∃ l : List Thumbnail,
      create_thumbnails registry resample reader mime sizes = .ok l ∧
      ∀ (i : Nat) (s : ThumbnailSize), sizes[i]? = some s →
        image.width < s.dimensions.1 → image.height < s.dimensions.2 →
        ∃ t : Thumbnail, l[i]? = some t ∧
          t.size = specAspectFit image.width image.height
            s.dimensions.1 s.dimensions.2 ∧
          t.size ≠ (image.width, image.height) := by
  refine ⟨sizes.map (thumbnail_for resample image),
    create_thumbnails_eq_ok hdec sizes, ?_⟩
  intro i s hi hsW hsH
  obtain ⟨hmW, hmH, hmW2, hmH2⟩ := ThumbnailSize.dimensions_bounds s
  have h := resize_size resample hres image hW hH s.dimensions.1
    s.dimensions.2 hmW hmH hmW2 hmH2
  refine ⟨thumbnail_for resample image s, ?_, h.1, ?_⟩
  · rw [List.getElem?_map, hi]
    rfl
  · rw [show (thumbnail_for resample image s).size =
      specAspectFit image.width image.height s.dimensions.1 s.dimensions.2
      from h.1]
    exact specAspectFit_ne_of_lt image.width image.height s.dimensions.1
      s.dimensions.2 hW hH hsW hsH hmW2 hmH2

/-- C9 witness: the 100×200 source with the (300, 300) class yields a
150×300 thumbnail, not the unchanged 100×200. -/
theorem create_thumbnails_upscale_policy_witness :
    ∃ l : List Thumbnail,
      create_thumbnails wRegistry wResample (.bytes [1]) .imagePng
        [.large] = .ok l ∧
      ∃ t : Thumbnail, l[0]? = some t ∧ t.size = (150, 300) ∧
        t.size ≠ (100, 200) := by
  obtain ⟨l, hl, hall⟩ := create_thumbnails_upscale_policy wRegistry
    wResample (fun img w h f => rfl) (.bytes [1]) .imagePng wImage100 rfl
    (by decide) (by decide) [.large]
  obtain ⟨t, ht, hsize, hne⟩ := hall 0 .large rfl (by decide) (by decide)
  refine ⟨l, hl, t, ht, ?_, hne⟩
  rw [hsize]
  show specAspectFit 100 200 300 300 = (150, 300)
  rw [← resize_dimensions_eq_specAspectFit 100 200 300 300 (by decide)
    (by decide) (by decide) (by decide) (by decide) (by decide)]
  decide

/-- C10: `size` is a pure accessor of the held raster's dimensions (the
thumbnail is immutable, so repeated calls agree), and a `Clone` of a
thumbnail is an equal value: it has the same size and each of the
consuming encoders behaves identically on the clone, so cloning first
lets a caller obtain several encodings of the same pixels. -/
theorem thumbnail_clone_preserves (t : Thumbnail) :
    t.clone = t ∧
    t.clone.size = t.size ∧
    t.size = (t.inner.width, t.inner.height) ∧
    (∀ write_to : WriteTo,
      t.clone.write_png write_to = t.write_png write_to ∧
      t.clone.write_jpeg write_to = t.write_jpeg write_to) :=
  ⟨rfl, rfl, rfl, fun _ => ⟨rfl, rfl⟩⟩

end Thumbnailer
